import Mathlib

/-!
Shallow embedding of `backend/services/faiss_index.py` (class `FAISSIndexManager`)
together with the configuration constants it reads from `backend/config.py`.

Modelling conventions:
* Embedding vectors are opaque payloads for every property considered here, so a
  vector is a `List Rat`; the `astype(np.float32)`/`ascontiguousarray` conversion
  is value-preserving in the model.
* A metadata dict is a structure of optional fields; `Option.none` models an
  absent key (callers in `main.py` strip `None`-valued keys before passing
  filter dicts, and metadata records come from the typed ingestion pipeline).
* The Python dict `self._id_to_idx` is an insertion-ordered association list
  with overwrite-on-assign (`mapSet`).
* The FAISS index object `self._index` is `Option FaissIdx`: `none` models
  `self._index is None`; `FaissIdx` records the index kind, the `is_trained`
  flag and the stored vectors (`ntotal = vecs.length`).
* Persisted files are a `Disk` value carried on the manager: each of the two
  artifacts is missing, present-but-malformed, or present-and-well-formed.
  `faiss.write_index`/`faiss.read_index` and `json.dump`/`json.load` round-trip
  well-formed payloads faithfully, which the `DFile.good` constructor captures.
* Fallible operations return `Except`/`Option`; an exception that the Python
  code would raise is an `.error`, and a crash while assembling search results
  (an `IndexError` on `self._metadata[idx]`) is `Option.none`.
-/

namespace FaissIndexModel

/-- An embedding vector (opaque payload for all verified properties). -/
abbrev Vec := List Rat

/-- A metadata dict. `none` models an absent key. The field `qtype` models the
Python key `"type"`. -/
structure Meta where
  id : Option String
  source_id : Option String
  topic : Option String
  qtype : Option String
  paper_id : Option String
  marks : Option Int
deriving Repr, DecidableEq

/-- `doc_id = meta.get("id") or meta.get("source_id", "")` — Python `or` takes
the second operand when the first is `None` or the empty string. -/
def docId (m : Meta) : String :=
  match m.id with
  | some s => if s = "" then m.source_id.getD "" else s
  | none => m.source_id.getD ""

/-- The in-memory model of a Python dict `str -> int`, insertion ordered. -/
abbrev IdMap := List (String × Nat)

/-- Dict assignment `mp[k] = v`: overwrite in place if the key exists,
otherwise append. -/
def mapSet (mp : IdMap) (k : String) (v : Nat) : IdMap :=
  match mp with
  | [] => [(k, v)]
  | (k', v') :: rest => if k' = k then (k, v) :: rest else (k', v') :: mapSet rest k v

/-- Dict lookup `mp.get(k)` / membership `k in mp`. -/
def mapGet (mp : IdMap) (k : String) : Option Nat :=
  match mp with
  | [] => none
  | (k', v') :: rest => if k' = k then some v' else mapGet rest k

/-- The FAISS index object: its kind, `is_trained` flag, and stored vectors. -/
structure FaissIdx where
  kind : String
  trained : Bool
  vecs : List Vec
deriving Repr, DecidableEq

/-- `config.IVF_NLIST = 100`, the minimum training sample count for IVF. -/
def IVF_NLIST : Nat := 100

/-- `_create_index`: `IndexIVFFlat` starts untrained, `IndexFlatIP` is always
trained; both start empty. -/
def createIndex (index_type : String) : FaissIdx :=
  if index_type = "ivf" then ⟨"ivf", false, []⟩ else ⟨"flat", true, []⟩

/-- The JSON sidecar written by `_save_index`. -/
structure Sidecar where
  metadata : List Meta
  id_to_idx : IdMap
  index_type : String
  dimension : Nat
deriving Repr, DecidableEq

/-- A persisted artifact: missing, present but unreadable, or well-formed. -/
inductive DFile (α : Type) where
  | missing
  | malformed
  | good (a : α)
deriving Repr, DecidableEq

/-- The two persisted artifacts (`FAISS_INDEX_FILE` and `METADATA_FILE`). -/
structure Disk where
  indexFile : DFile FaissIdx
  metaFile : DFile Sidecar
deriving Repr, DecidableEq

/-- No persisted files. -/
def emptyDisk : Disk := ⟨DFile.missing, DFile.missing⟩

/-- The mutable state of a `FAISSIndexManager` plus the persisted files. -/
structure FAISSIndexManager where
  dimension : Nat
  index_type : String
  idx : Option FaissIdx
  metadata : List Meta
  id_to_idx : IdMap
  disk : Disk
deriving Repr, DecidableEq

/-- Vectors currently stored by the underlying index (`[]` if `_index is None`). -/
def vecsOf (m : FAISSIndexManager) : List Vec :=
  match m.idx with
  | none => []
  | some ix => ix.vecs

/-- The `size` property: `0` if `_index is None`, else `ntotal`. -/
def sizeM (m : FAISSIndexManager) : Nat :=
  (vecsOf m).length

/-- The `is_trained` property: `False` if `_index is None`. -/
def isTrained (m : FAISSIndexManager) : Bool :=
  match m.idx with
  | none => false
  | some ix => ix.trained

/-- The `index` property getter: creates a fresh index when `_index is None`. -/
def getIndexObj (m : FAISSIndexManager) : FaissIdx :=
  match m.idx with
  | none => createIndex m.index_type
  | some ix => ix

/-- The deduplication loop of `add_documents`: iterate over `zip(embeddings,
metadata)`, skip a pair whose derived id is already in `self._id_to_idx`, and
register a surviving pair's id at `len(self._metadata) + len(new_metadata) - 1`
(the length taken after the append). `base = len(self._metadata)`. -/
def dedupGo (base : Nat) : List (Vec × Meta) → List Vec → List Meta → IdMap →
    (List Vec × List Meta × IdMap)
  | [], nv, nm, mp => (nv, nm, mp)
  | (v, mt) :: rest, nv, nm, mp =>
    let did := docId mt
    if (mapGet mp did).isSome then
      dedupGo base rest nv nm mp
    else
      dedupGo base rest (nv ++ [v]) (nm ++ [mt]) (mapSet mp did (base + (nm.length + 1) - 1))

/-- The non-dedup branch: `self._id_to_idx[doc_id] = len(self._metadata) + i`
for each enumerated metadata record. -/
def registerAll (base : Nat) : List Meta → Nat → IdMap → IdMap
  | [], _, mp => mp
  | mt :: rest, i, mp => registerAll base rest (i + 1) (mapSet mp (docId mt) (base + i))

/-- The error raised by `add_documents`: `ValueError(f"Embeddings ({ne}) and
metadata ({nm}) count mismatch")`, carrying the two lengths. -/
inductive AddError where
  | shapeMismatch (ne nm : Nat)
deriving Repr, DecidableEq

/-- The batch-preparation stage of `add_documents`: the surviving embeddings,
the surviving metadata, and the identity map after the loop's registrations
(all three inputs pass through unchanged except the map when
`deduplicate=False`). -/
def dedupResult (m : FAISSIndexManager) (embeddings : List Vec)
    (metadata : List Meta) (deduplicate : Bool) :
    List Vec × List Meta × IdMap :=
  if deduplicate then
    dedupGo m.metadata.length (embeddings.zip metadata) [] [] m.id_to_idx
  else
    (embeddings, metadata, registerAll m.metadata.length metadata 0 m.id_to_idx)

/-- The training stage of `add_documents`:
`if self.index_type == "ivf" and not self.is_trained`, either train on the
surviving batch (`len(embeddings) >= IVF_NLIST`) or permanently fall back to a
fresh flat index. -/
def trainStep (m1 : FAISSIndexManager) (nEmb : Nat) : FAISSIndexManager :=
  if m1.index_type = "ivf" ∧ isTrained m1 = false then
    if IVF_NLIST ≤ nEmb then
      -- `self.index.train(embeddings)`
      let ix := getIndexObj m1
      { m1 with idx := some { ix with trained := true } }
    else
      -- fallback: `self.index_type = "flat"; self._create_index()`
      { m1 with index_type := "flat", idx := some (createIndex "flat") }
  else m1

/-- The commit stage of `add_documents`: `self.index.add(embeddings)`,
`self._metadata.extend(metadata)`, then `self._save_index()`. -/
def commitStep (m2 : FAISSIndexManager) (embs : List Vec) (metas : List Meta) :
    FAISSIndexManager :=
  let ix2 := getIndexObj m2
  let ix3 : FaissIdx := { ix2 with vecs := ix2.vecs ++ embs }
  let m3 : FAISSIndexManager :=
    { m2 with idx := some ix3, metadata := m2.metadata ++ metas }
  { m3 with disk := ⟨DFile.good ix3,
      DFile.good ⟨m3.metadata, m3.id_to_idx, m3.index_type, m3.dimension⟩⟩ }

/-- `FAISSIndexManager.add_documents(embeddings, metadata, deduplicate)`.
Returns the new manager state together with the number of documents actually
added, or the raised error. -/
def add_documents (m : FAISSIndexManager) (embeddings : List Vec)
    (metadata : List Meta) (deduplicate : Bool) :
    Except AddError (FAISSIndexManager × Nat) :=
  if embeddings.length ≠ metadata.length then
    .error (.shapeMismatch embeddings.length metadata.length)
  else if embeddings.length = 0 then
    .ok (m, 0)
  else if deduplicate ∧ (dedupResult m embeddings metadata deduplicate).1.isEmpty then
    -- `if not new_embeddings: return 0` (the loop registered nothing)
    .ok ({ m with id_to_idx := (dedupResult m embeddings metadata deduplicate).2.2 }, 0)
  else
    .ok (commitStep
      (trainStep { m with id_to_idx := (dedupResult m embeddings metadata deduplicate).2.2 }
        (dedupResult m embeddings metadata deduplicate).1.length)
      (dedupResult m embeddings metadata deduplicate).1
      (dedupResult m embeddings metadata deduplicate).2.1,
      (dedupResult m embeddings metadata deduplicate).1.length)

/-- A filter dict as built by the API layer (`main.py` drops `None`-valued keys
before calling `search`, so a present key always carries a well-typed value).
`none` models an absent key; `qtypes` models the key `"types"`. -/
structure Filters where
  topics : Option (List String)
  qtypes : Option (List String)
  paper_ids : Option (List String)
  min_marks : Option Int
  max_marks : Option Int
deriving Repr, DecidableEq

/-- Python truthiness of `filters.get(key)` for a list-valued key: the key is
present and the list non-empty. -/
def optListTruthy : Option (List String) → Bool
  | some (_ :: _) => true
  | _ => false

/-- Python truthiness of a (possibly `None`) filter dict: `if filters:` is true
iff the dict exists and has at least one key. -/
def filtersTruthy : Option Filters → Bool
  | none => false
  | some f =>
    f.topics.isSome || f.qtypes.isSome || f.paper_ids.isSome ||
      f.min_marks.isSome || f.max_marks.isSome

/-- `needle` is an initial segment of `hay` (character lists). -/
def charsStartWith : List Char → List Char → Bool
  | _, [] => true
  | [], _ :: _ => false
  | c :: cs, d :: ds => c = d && charsStartWith cs ds

/-- `needle` occurs contiguously inside `hay` (character lists). -/
def charsContain : List Char → List Char → Bool
  | [], needle => needle.isEmpty
  | c :: cs, needle => charsStartWith (c :: cs) needle || charsContain cs needle

/-- Python substring test `needle in hay`. -/
def strContains (hay needle : String) : Bool :=
  charsContain hay.data needle.data

/-- `FAISSIndexManager._matches_filters(metadata, filters)`. -/
def matches_filters (mt : Meta) (f : Filters) : Bool :=
  if optListTruthy f.topics &&
      !((f.topics.getD []).any fun t =>
        strContains (String.toLower (mt.topic.getD "")) (String.toLower t)) then
    false
  else if optListTruthy f.qtypes && !((f.qtypes.getD []).contains (mt.qtype.getD "")) then
    false
  else if optListTruthy f.paper_ids && !((f.paper_ids.getD []).contains (mt.paper_id.getD "")) then
    false
  else
    match mt.marks with
    | none => true
    | some mk =>
      if (f.min_marks.map fun lo => decide (mk < lo)).getD false then false
      else if (f.max_marks.map fun hi => decide (hi < mk)).getD false then false
      else true

/-- The guard `if filters and not self._matches_filters(meta, filters): continue`;
`true` means the candidate is kept. -/
def passFilter (f : Option Filters) (mt : Meta) : Bool :=
  match f with
  | none => true
  | some fd => !filtersTruthy (some fd) || matches_filters mt fd

/-- Python list indexing `xs[i]` (negative indices address from the end;
`none` is an `IndexError`). -/
def pyGet (xs : List Meta) (i : Int) : Option Meta :=
  if 0 ≤ i then xs.get? i.toNat
  else
    let j : Int := (xs.length : Int) + i
    if 0 ≤ j then xs.get? j.toNat else none

/-- The result-collection loop of `search`: for each `(score, idx)` candidate in
rank order, skip the `-1` sentinel, skip `idx >= len(self._metadata)`, resolve
metadata, apply the filter, append, and break once `len(results) >= k`.
`none` models an `IndexError` while resolving metadata. -/
def assembleResults (md : List Meta) (f : Option Filters) (k : Nat) :
    List (Rat × Int) → List (Meta × Rat) → Option (List (Meta × Rat))
  | [], results => some results
  | (score, idx) :: rest, results =>
    if idx = -1 then assembleResults md f k rest results
    else if (md.length : Int) ≤ idx then assembleResults md f k rest results
    else
      match pyGet md idx with
      | none => none
      | some mt =>
        if passFilter f mt = false then assembleResults md f k rest results
        else
          let results2 := results ++ [(mt, score)]
          if k ≤ results2.length then some results2
          else assembleResults md f k rest results2

/-- What the collection loop of `search` makes of a single raw candidate
`(score, idx)`: nothing for the `-1` sentinel or an index at or beyond
`len(self._metadata)`, otherwise the resolved `(metadata, score)` pair. -/
def resolveCand (md : List Meta) (c : Rat × Int) : Option (Meta × Rat) :=
  if c.2 = -1 then none
  else if (md.length : Int) ≤ c.2 then none
  else (pyGet md c.2).map fun mt => (mt, c.1)

/-- A metadata record with neither a truthy `"id"` value nor a `"source_id"`
key. -/
def isIdless (mt : Meta) : Bool :=
  decide (mt.id.getD "" = "") && mt.source_id.isNone

/-- Number of identifier-less records in a metadata list. -/
def idlessCount (l : List Meta) : Nat :=
  l.countP isIdless

/-- `FAISSIndexManager.search(query_embedding, k, filters)`. The underlying
nearest-neighbor call `self.index.search(query, search_k)` is abstracted as an
oracle mapping the requested candidate count to the ranked `(score, index)`
list it returns for the fixed query vector. -/
def search (m : FAISSIndexManager) (oracle : Nat → List (Rat × Int)) (k : Nat)
    (filters : Option Filters) : Option (List (Meta × Rat)) :=
  if sizeM m = 0 then some []
  else
    let search_k := if filtersTruthy filters then min (k * 3) (sizeM m) else k
    assembleResults m.metadata filters k (oracle search_k) []

/-- `FAISSIndexManager._save_index`: write the index blob and the JSON sidecar.
`none` models the `TypeError` `faiss.write_index` raises when `_index is None`
(unreachable from `add_documents`). -/
def save_index (m : FAISSIndexManager) : Option FAISSIndexManager :=
  m.idx.map fun ix =>
    { m with disk := ⟨DFile.good ix,
        DFile.good ⟨m.metadata, m.id_to_idx, m.index_type, m.dimension⟩⟩ }

/-- The outcome of `_load_index`: either a normal return of `True`/`False` with
the resulting manager state, or a propagated exception. The constructor
`raised` exists so that specification claims about raising can be stated; the
implementation catches every exception and never produces it. -/
inductive LoadOutcome where
  | returned (loaded : Bool) (m : FAISSIndexManager)
  | raised (err : String)
deriving Repr, DecidableEq

/-- Whether a load outcome is a propagated exception. -/
def LoadOutcome.isRaised : LoadOutcome → Bool
  | .raised _ => true
  | _ => false

/-- `FAISSIndexManager._load_index`, reading `m.disk`. Missing artifacts return
`False`. A malformed index blob makes `faiss.read_index` raise, which the bare
`except` catches: `False`, state untouched. A good blob with a malformed
sidecar raises in `json.load` after `self._index` was already assigned: `False`
with the blob kept. A well-formed pair restores metadata, the identity map and
the index type (the declared dimension is not read back or checked). -/
def load_index (m : FAISSIndexManager) : LoadOutcome :=
  match m.disk.indexFile, m.disk.metaFile with
  | DFile.missing, _ => .returned false m
  | _, DFile.missing => .returned false m
  | DFile.malformed, _ => .returned false m
  | DFile.good ix, DFile.malformed => .returned false { m with idx := some ix }
  | DFile.good ix, DFile.good sc =>
    let m2 : FAISSIndexManager :=
      { m with
        idx := some ix
        metadata := sc.metadata
        id_to_idx := sc.id_to_idx
        index_type := sc.index_type }
    .returned true m2

/-- `FAISSIndexManager.__init__(dimension, index_type, ...)` over a given disk:
start from empty in-memory state, then `self._load_index()` (whose boolean
result `__init__` ignores; `load_index` never raises). -/
def initManager (dimension : Nat) (index_type : String) (disk : Disk) :
    FAISSIndexManager :=
  let base : FAISSIndexManager := ⟨dimension, index_type, none, [], [], disk⟩
  match load_index base with
  | .returned _ m => m
  | .raised _ => base

/-- The pairs of a batch that survive the dedup filter (all of them when
`deduplicate=False`); empty when the call raises or adds nothing. -/
def survivors (m : FAISSIndexManager) (vs : List Vec) (ms : List Meta)
    (dd : Bool) : List (Vec × Meta) :=
  if vs.length ≠ ms.length then []
  else (dedupResult m vs ms dd).1.zip (dedupResult m vs ms dd).2.1

/-- Zero or more successful `add_documents` calls. -/
inductive AddSeq : FAISSIndexManager → FAISSIndexManager → Prop
  | refl (m : FAISSIndexManager) : AddSeq m m
  | step {m0 m1 m2 : FAISSIndexManager} {vs : List Vec} {ms : List Meta}
      {dd : Bool} {n : Nat} : AddSeq m0 m1 →
      add_documents m1 vs ms dd = .ok (m2, n) → AddSeq m0 m2

/-- States reachable from a freshly constructed manager (no persisted files) by
successful `add_documents` calls, together with the concatenation of all
surviving `(vector, metadata)` input pairs committed along the way. -/
inductive ReachL (d : Nat) (t : String) :
    FAISSIndexManager → List (Vec × Meta) → Prop
  | init : ReachL d t (initManager d t emptyDisk) []
  | step {m : FAISSIndexManager} {ps : List (Vec × Meta)} {vs : List Vec}
      {ms : List Meta} {dd : Bool} {m' : FAISSIndexManager} {n : Nat} :
      ReachL d t m ps → add_documents m vs ms dd = .ok (m', n) →
      ReachL d t m' (ps ++ survivors m vs ms dd)

/-- States reachable from a freshly constructed manager by successful
`add_documents` calls that all use `deduplicate=True`. -/
inductive ReachD (d : Nat) (t : String) : FAISSIndexManager → Prop
  | init : ReachD d t (initManager d t emptyDisk)
  | step {m : FAISSIndexManager} {vs : List Vec} {ms : List Meta}
      {m' : FAISSIndexManager} {n : Nat} :
      ReachD d t m → add_documents m vs ms true = .ok (m', n) → ReachD d t m'

/-! ## Helper lemmas about the identity map -/

theorem mapGet_mapSet_self (mp : IdMap) (k : String) (v : Nat) :
    mapGet (mapSet mp k v) k = some v := by
  induction mp with
  | nil => simp [mapSet, mapGet]
  | cons p rest ih =>
    obtain ⟨k', v'⟩ := p
    by_cases h : k' = k
    · simp [mapSet, mapGet, h]
    · simp [mapSet, mapGet, h, ih]

theorem mapGet_mapSet_ne (mp : IdMap) {k k' : String} (h : k' ≠ k) (v : Nat) :
    mapGet (mapSet mp k v) k' = mapGet mp k' := by
  induction mp with
  | nil => simp [mapSet, mapGet, Ne.symm h]
  | cons p rest ih =>
    obtain ⟨a, b⟩ := p
    by_cases ha : a = k
    · subst ha
      simp [mapSet, mapGet, Ne.symm h]
    · simp [mapSet, mapGet, ha, ih]

theorem isSome_mapGet_mapSet (mp : IdMap) (k k' : String) (v : Nat)
    (h : (mapGet mp k').isSome) : (mapGet (mapSet mp k v) k').isSome := by
  by_cases hk : k' = k
  · subst hk; simp [mapGet_mapSet_self]
  · rwa [mapGet_mapSet_ne mp hk]

/-! ## Helper lemmas about the deduplication loop -/

theorem dedupGo_mono (base : Nat) (key : String) :
    ∀ (ps : List (Vec × Meta)) (nv : List Vec) (nm : List Meta) (mp : IdMap),
      (mapGet mp key).isSome →
      (mapGet (dedupGo base ps nv nm mp).2.2 key).isSome := by
  intro ps
  induction ps with
  | nil => intro nv nm mp h; simpa [dedupGo] using h
  | cons p rest ih =>
    intro nv nm mp h
    obtain ⟨v, mt⟩ := p
    by_cases hd : (mapGet mp (docId mt)).isSome
    · simpa [dedupGo, hd] using ih nv nm mp h
    · simp only [dedupGo, hd, Bool.false_eq_true, if_false]
      exact ih _ _ _ (isSome_mapGet_mapSet _ _ _ _ h)

theorem dedupGo_covers (base : Nat) :
    ∀ (ps : List (Vec × Meta)) (nv : List Vec) (nm : List Meta) (mp : IdMap)
      (p : Vec × Meta), p ∈ ps →
      (mapGet (dedupGo base ps nv nm mp).2.2 (docId p.2)).isSome := by
  intro ps
  induction ps with
  | nil => intro _ _ _ p hp; cases hp
  | cons q rest ih =>
    intro nv nm mp p hp
    obtain ⟨v, mt⟩ := q
    rcases List.mem_cons.mp hp with hEq | hMem
    · subst hEq
      by_cases hd : (mapGet mp (docId mt)).isSome
      · simpa [dedupGo, hd] using dedupGo_mono base _ rest nv nm mp hd
      · simp only [dedupGo, hd, Bool.false_eq_true, if_false]
        exact dedupGo_mono base _ rest _ _ _
          (by simp [mapGet_mapSet_self])
    · by_cases hd : (mapGet mp (docId mt)).isSome
      · simpa [dedupGo, hd] using ih nv nm mp p hMem
      · simp only [dedupGo, hd, Bool.false_eq_true, if_false]
        exact ih _ _ _ p hMem

theorem dedupGo_all_skip (base : Nat) :
    ∀ (ps : List (Vec × Meta)) (nv : List Vec) (nm : List Meta) (mp : IdMap),
      (∀ p ∈ ps, (mapGet mp (docId p.2)).isSome) →
      dedupGo base ps nv nm mp = (nv, nm, mp) := by
  intro ps
  induction ps with
  | nil => intro nv nm mp _; simp [dedupGo]
  | cons q rest ih =>
    intro nv nm mp h
    obtain ⟨v, mt⟩ := q
    have hd : (mapGet mp (docId mt)).isSome := h (v, mt) (List.mem_cons_self _ _)
    simp only [dedupGo, hd, if_true]
    exact ih nv nm mp fun p hp => h p (List.mem_cons_of_mem _ hp)

theorem dedupGo_len_eq (base : Nat) :
    ∀ (ps : List (Vec × Meta)) (nv : List Vec) (nm : List Meta) (mp : IdMap),
      nv.length = nm.length →
      (dedupGo base ps nv nm mp).1.length = (dedupGo base ps nv nm mp).2.1.length := by
  intro ps
  induction ps with
  | nil => intro nv nm mp h; simpa [dedupGo] using h
  | cons q rest ih =>
    intro nv nm mp h
    obtain ⟨v, mt⟩ := q
    by_cases hd : (mapGet mp (docId mt)).isSome
    · simpa [dedupGo, hd] using ih nv nm mp h
    · simp only [dedupGo, hd, Bool.false_eq_true, if_false]
      exact ih _ _ _ (by simp [h])

/-! ## Structural lemmas about the stages of `add_documents` -/

theorem createIndex_vecs (t : String) : (createIndex t).vecs = [] := by
  unfold createIndex; split <;> rfl

theorem getIndexObj_vecs (m : FAISSIndexManager) : (getIndexObj m).vecs = vecsOf m := by
  cases h : m.idx <;> simp [getIndexObj, vecsOf, h, createIndex_vecs]

theorem commitStep_vecs (m2 : FAISSIndexManager) (embs : List Vec) (metas : List Meta) :
    vecsOf (commitStep m2 embs metas) = vecsOf m2 ++ embs := by
  simp [commitStep, vecsOf, getIndexObj_vecs]

theorem commitStep_metadata (m2 : FAISSIndexManager) (embs : List Vec) (metas : List Meta) :
    (commitStep m2 embs metas).metadata = m2.metadata ++ metas := rfl

theorem commitStep_id_to_idx (m2 : FAISSIndexManager) (embs : List Vec) (metas : List Meta) :
    (commitStep m2 embs metas).id_to_idx = m2.id_to_idx := rfl

theorem commitStep_index_type (m2 : FAISSIndexManager) (embs : List Vec) (metas : List Meta) :
    (commitStep m2 embs metas).index_type = m2.index_type := rfl

theorem commitStep_trained (m2 : FAISSIndexManager) (embs : List Vec) (metas : List Meta) :
    isTrained (commitStep m2 embs metas) = (getIndexObj m2).trained := rfl

theorem trainStep_metadata (m1 : FAISSIndexManager) (n : Nat) :
    (trainStep m1 n).metadata = m1.metadata := by
  unfold trainStep
  split
  · split <;> rfl
  · rfl

theorem trainStep_id_to_idx (m1 : FAISSIndexManager) (n : Nat) :
    (trainStep m1 n).id_to_idx = m1.id_to_idx := by
  unfold trainStep
  split
  · split <;> rfl
  · rfl

theorem trainStep_vecs (m1 : FAISSIndexManager) (n : Nat)
    (hinv : m1.index_type = "ivf" → isTrained m1 = false → vecsOf m1 = []) :
    vecsOf (trainStep m1 n) = vecsOf m1 := by
  unfold trainStep
  split
  · rename_i hcond
    split
    · simp [vecsOf, getIndexObj_vecs]
    · show vecsOf _ = vecsOf m1
      rw [hinv hcond.1 hcond.2]
      simp [vecsOf, createIndex_vecs]
  · rfl

theorem trainStep_flat_of_small (m1 : FAISSIndexManager) (n : Nat)
    (hivf : m1.index_type = "ivf") (huntr : isTrained m1 = false)
    (hsmall : n < IVF_NLIST) : (trainStep m1 n).index_type = "flat" := by
  unfold trainStep
  rw [if_pos ⟨hivf, huntr⟩, if_neg (by omega)]

theorem trainStep_flat_preserved (m1 : FAISSIndexManager) (n : Nat)
    (h : m1.index_type = "flat") : (trainStep m1 n).index_type = "flat" := by
  unfold trainStep
  rw [if_neg]
  · exact h
  · rintro ⟨h1, -⟩
    rw [h] at h1
    exact absurd h1 (by decide)

/-- Case analysis of a successful `add_documents` call: the empty-batch early
return, the all-duplicates early return, or the commit path. -/
theorem add_documents_ok_cases {m : FAISSIndexManager} {vs : List Vec}
    {ms : List Meta} {dd : Bool} {m' : FAISSIndexManager} {n : Nat}
    (h : add_documents m vs ms dd = .ok (m', n)) :
    vs.length = ms.length ∧
    ((vs.length = 0 ∧ m' = m ∧ n = 0) ∨
     (vs.length ≠ 0 ∧ dd = true ∧ (dedupResult m vs ms dd).1.isEmpty = true ∧
        m' = { m with id_to_idx := (dedupResult m vs ms dd).2.2 } ∧ n = 0) ∨
     (vs.length ≠ 0 ∧ ¬(dd = true ∧ (dedupResult m vs ms dd).1.isEmpty = true) ∧
        m' = commitStep
          (trainStep { m with id_to_idx := (dedupResult m vs ms dd).2.2 }
            (dedupResult m vs ms dd).1.length)
          (dedupResult m vs ms dd).1 (dedupResult m vs ms dd).2.1 ∧
        n = (dedupResult m vs ms dd).1.length)) := by
  unfold add_documents at h
  split at h
  · exact absurd h (by simp)
  · rename_i hlen
    rw [not_ne_iff] at hlen
    refine ⟨hlen, ?_⟩
    split at h
    · rename_i hz
      simp only [Except.ok.injEq, Prod.mk.injEq] at h
      exact Or.inl ⟨hz, h.1.symm, h.2.symm⟩
    · rename_i hz
      split at h
      · rename_i hdup
        simp only [Except.ok.injEq, Prod.mk.injEq] at h
        exact Or.inr (Or.inl ⟨hz, hdup.1, hdup.2, h.1.symm, h.2.symm⟩)
      · rename_i hdup
        simp only [Except.ok.injEq, Prod.mk.injEq] at h
        exact Or.inr (Or.inr ⟨hz, hdup, h.1.symm, h.2.symm⟩)

/-! ## Claim theorems -/

/-- C5: `add_documents` called with `len(vectors) != len(metadata)` fails with
the shape-mismatch `ValueError` and has no effect (the error return carries no
new state: the caller's manager — vectors, metadata, identity map, index state
and persisted files — is untouched); `add_documents` called with an empty input
returns 0 with the manager unchanged. -/
theorem C5_shape_mismatch_and_empty (m : FAISSIndexManager) (vs : List Vec)
    (ms : List Meta) (dd : Bool) :
    (vs.length ≠ ms.length →
      add_documents m vs ms dd = .error (.shapeMismatch vs.length ms.length)) ∧
    (vs = [] → ms = [] → add_documents m vs ms dd = .ok (m, 0)) := by
  constructor
  · intro h
    unfold add_documents
    rw [if_pos h]
  · rintro rfl rfl
    unfold add_documents
    simp

/-- Witness for C5 at concrete inputs: a one-vector/zero-metadata call raises
the shape mismatch, and an empty call returns `(m, 0)`. -/
theorem C5_witness :
    add_documents (initManager 2 "flat" emptyDisk) [[1, 0]] [] true =
      .error (.shapeMismatch 1 0) ∧
    add_documents (initManager 2 "flat" emptyDisk) [] [] true =
      .ok (initManager 2 "flat" emptyDisk, 0) :=
  ⟨(C5_shape_mismatch_and_empty _ _ _ _).1 (by decide),
   (C5_shape_mismatch_and_empty _ _ _ _).2 rfl rfl⟩

/-- C7: with the topic, type and paper-id clauses inactive, a record whose
marks value is absent always passes `_matches_filters`, and a record with
marks present passes iff the marks are `>= min_marks` (when given) and
`<= max_marks` (when given). -/
theorem C7_marks_range_clause (mt : Meta) (f : Filters)
    (ht : optListTruthy f.topics = false) (hy : optListTruthy f.qtypes = false)
    (hp : optListTruthy f.paper_ids = false) :
    (mt.marks = none → matches_filters mt f = true) ∧
    (∀ mk : Int, mt.marks = some mk →
      (matches_filters mt f = true ↔
        (∀ lo, f.min_marks = some lo → lo ≤ mk) ∧
        (∀ hi, f.max_marks = some hi → mk ≤ hi))) := by
  obtain ⟨ft, fy, fp, fmn, fmx⟩ := f
  constructor
  · intro hm
    simp [matches_filters, ht, hy, hp, hm]
  · intro mk hm
    simp only [matches_filters, ht, hy, hp, hm, Bool.false_and, Bool.false_eq_true,
      if_false]
    rcases fmn with _ | lo <;> rcases fmx with _ | hi <;> simp_all

/-- Witness for C7: marks `7` is excluded by `min_marks = 8` and included by
`min_marks = 5, max_marks = 10`; an absent marks value passes a marks-range
filter. -/
theorem C7_witness :
    matches_filters ⟨some "q", none, none, none, none, some 7⟩
      ⟨none, none, none, some 8, none⟩ = false ∧
    matches_filters ⟨some "q", none, none, none, none, some 7⟩
      ⟨none, none, none, some 5, some 10⟩ = true ∧
    matches_filters ⟨some "q", none, none, none, none, none⟩
      ⟨none, none, none, some 8, some 10⟩ = true := by
  refine ⟨?_, ?_, ?_⟩
  · have h := (C7_marks_range_clause ⟨some "q", none, none, none, none, some 7⟩
      ⟨none, none, none, some 8, none⟩ rfl rfl rfl).2 7 rfl
    cases hb : matches_filters ⟨some "q", none, none, none, none, some 7⟩
      ⟨none, none, none, some 8, none⟩
    · rfl
    · have := (h.mp hb).1 8 rfl
      omega
  · exact (C7_marks_range_clause ⟨some "q", none, none, none, none, some 7⟩
      ⟨none, none, none, some 5, some 10⟩ rfl rfl rfl).2 7 rfl |>.mpr
      ⟨fun lo hlo => by cases hlo; omega, fun hi hhi => by cases hhi; omega⟩
  · exact (C7_marks_range_clause ⟨some "q", none, none, none, none, none⟩
      ⟨none, none, none, some 8, some 10⟩ rfl rfl rfl).1 rfl

/-- C2: after any successful `add_documents` call with `deduplicate=True`,
repeating the very same batch with `deduplicate=True` returns 0 and leaves the
entire manager state — size, stored metadata, identity map, and persisted
files — unchanged. -/
theorem C2_dedup_idempotent {m : FAISSIndexManager} {vs : List Vec}
    {ms : List Meta} {m1 : FAISSIndexManager} {n1 : Nat}
    (h1 : add_documents m vs ms true = .ok (m1, n1)) :
    add_documents m1 vs ms true = .ok (m1, 0) := by
  obtain ⟨hlen, hcases⟩ := add_documents_ok_cases h1
  have hcov : ∀ p ∈ vs.zip ms, (mapGet m1.id_to_idx (docId p.2)).isSome := by
    have hgo := dedupGo_covers m.metadata.length (vs.zip ms) [] [] m.id_to_idx
    rcases hcases with ⟨hz, he, -⟩ | ⟨hz, -, -, he, -⟩ | ⟨hz, -, he, -⟩
    · intro p hp
      have hv : vs = [] := List.length_eq_zero.mp hz
      subst hv
      simp at hp
    · intro p hp
      rw [he]
      simpa [dedupResult] using hgo p hp
    · intro p hp
      rw [he, commitStep_id_to_idx, trainStep_id_to_idx]
      simpa [dedupResult] using hgo p hp
  by_cases hz : vs.length = 0
  · have hv : vs = [] := List.length_eq_zero.mp hz
    have hm : ms = [] := List.length_eq_zero.mp (by omega)
    subst hv; subst hm
    unfold add_documents
    simp
  · have hskip : dedupResult m1 vs ms true = ([], [], m1.id_to_idx) := by
      unfold dedupResult
      rw [if_pos rfl]
      exact dedupGo_all_skip _ _ _ _ _ hcov
    unfold add_documents
    rw [if_neg (by omega), if_neg hz, if_pos (by rw [hskip]; exact ⟨rfl, rfl⟩)]
    rw [hskip]

/-- Witness for C2: adding the batch `[( [1,0], {id: "q1"} )]` to a fresh flat
manager and then adding it a second time with `deduplicate=True` returns 0 and
the identical state. -/
theorem C2_witness :
    add_documents
      ⟨2, "flat", some ⟨"flat", true, [[1, 0]]⟩,
        [⟨some "q1", none, none, none, none, none⟩], [("q1", 0)],
        ⟨DFile.good ⟨"flat", true, [[1, 0]]⟩,
          DFile.good ⟨[⟨some "q1", none, none, none, none, none⟩],
            [("q1", 0)], "flat", 2⟩⟩⟩
      [[1, 0]] [⟨some "q1", none, none, none, none, none⟩] true =
    .ok (⟨2, "flat", some ⟨"flat", true, [[1, 0]]⟩,
        [⟨some "q1", none, none, none, none, none⟩], [("q1", 0)],
        ⟨DFile.good ⟨"flat", true, [[1, 0]]⟩,
          DFile.good ⟨[⟨some "q1", none, none, none, none, none⟩],
            [("q1", 0)], "flat", 2⟩⟩⟩, 0) :=
  @C2_dedup_idempotent (initManager 2 "flat" emptyDisk) [[1, 0]]
    [⟨some "q1", none, none, none, none, none⟩] _ 1 rfl

/-- A successful `add_documents` call never leaves the flat state: the training
block is guarded by `self.index_type == "ivf"` and nothing else writes
`index_type`. -/
theorem add_flat_preserved {m m' : FAISSIndexManager} {vs : List Vec}
    {ms : List Meta} {dd : Bool} {n : Nat}
    (hf : m.index_type = "flat") (h : add_documents m vs ms dd = .ok (m', n)) :
    m'.index_type = "flat" := by
  obtain ⟨-, hcases⟩ := add_documents_ok_cases h
  rcases hcases with ⟨-, he, -⟩ | ⟨-, -, -, he, -⟩ | ⟨-, -, he, -⟩
  · rw [he]; exact hf
  · rw [he]; exact hf
  · rw [he, commitStep_index_type]
    exact trainStep_flat_preserved _ _ hf

/-- C3: an `"ivf"`-configured, still-untrained manager that commits a surviving
batch smaller than `IVF_NLIST` falls back to `index_type = "flat"`, and no
sequence of later successful `add_documents` calls — of any batch size — ever
restores `"ivf"`. -/
theorem C3_training_fallback_permanent {m : FAISSIndexManager} {vs : List Vec}
    {ms : List Meta} {dd : Bool} {m1 : FAISSIndexManager} {n : Nat}
    (hivf : m.index_type = "ivf") (huntr : isTrained m = false)
    (hadd : add_documents m vs ms dd = .ok (m1, n))
    (hpos : 0 < n) (hsmall : n < IVF_NLIST) :
    m1.index_type = "flat" ∧ ∀ m2, AddSeq m1 m2 → m2.index_type = "flat" := by
  obtain ⟨hlen, hcases⟩ := add_documents_ok_cases hadd
  have hflat : m1.index_type = "flat" := by
    rcases hcases with ⟨-, -, hn⟩ | ⟨-, -, -, -, hn⟩ | ⟨-, -, he, hn⟩
    · omega
    · omega
    · rw [he, commitStep_index_type]
      exact trainStep_flat_of_small _ _ hivf huntr (by omega)
  refine ⟨hflat, ?_⟩
  intro m2 hseq
  induction hseq with
  | refl => exact hflat
  | step _ hstep ih => exact add_flat_preserved ih hstep

/-- A one-record example metadata dict carrying id `"q1"`. -/
def mtQ1 : Meta := ⟨some "q1", none, none, none, none, none⟩

/-- An example metadata dict with no identifying fields at all. -/
def mtNoId : Meta := ⟨none, none, none, none, none, none⟩

/-- The manager state after ingesting one vector into a fresh `"ivf"` manager:
the undersized batch forced the permanent fallback to a flat index. -/
def c3m1 : FAISSIndexManager :=
  ⟨2, "flat", some ⟨"flat", true, [[1, 0]]⟩, [mtQ1], [("q1", 0)],
    ⟨DFile.good ⟨"flat", true, [[1, 0]]⟩,
      DFile.good ⟨[mtQ1], [("q1", 0)], "flat", 2⟩⟩⟩

/-- `c3m1` after a follow-up batch of `IVF_NLIST` identifier-less records added
with `deduplicate=False`. -/
def c3m2 : FAISSIndexManager :=
  ⟨2, "flat", some ⟨"flat", true, List.replicate 101 [1, 0]⟩,
    mtQ1 :: List.replicate 100 mtNoId, [("q1", 0), ("", 100)],
    ⟨DFile.good ⟨"flat", true, List.replicate 101 [1, 0]⟩,
      DFile.good ⟨mtQ1 :: List.replicate 100 mtNoId,
        [("q1", 0), ("", 100)], "flat", 2⟩⟩⟩

/-- Witness for C3: a fresh `"ivf"` manager falls back to `"flat"` on a
one-vector first batch, and a subsequent batch of exactly `IVF_NLIST = 100`
vectors still leaves it `"flat"`. -/
theorem C3_witness : c3m1.index_type = "flat" ∧ c3m2.index_type = "flat" := by
  have h := @C3_training_fallback_permanent ⟨2, "ivf", none, [], [], emptyDisk⟩
    [[1, 0]] [mtQ1] true c3m1 1 rfl rfl rfl (by decide) (by decide)
  have hstep : add_documents c3m1 (List.replicate 100 [1, 0])
      (List.replicate 100 mtNoId) false = .ok (c3m2, 100) := rfl
  exact ⟨h.1, h.2 c3m2 (AddSeq.step (AddSeq.refl c3m1) hstep)⟩

/-- C4 counterexample: with both artifacts present but the index blob
malformed, `_load_index` does not raise anything — it returns `False` with the
manager state exactly as a missing index would leave it; and a well-formed pair
whose sidecar declares dimension `999` against a manager configured for `384`
loads successfully (the declared dimension is never checked). -/
theorem C4_counterexample :
    (load_index ⟨384, "flat", none, [], [],
      ⟨DFile.malformed, DFile.good ⟨[], [], "flat", 384⟩⟩⟩).isRaised = false ∧
    load_index ⟨384, "flat", none, [], [],
      ⟨DFile.malformed, DFile.good ⟨[], [], "flat", 384⟩⟩⟩ =
      .returned false ⟨384, "flat", none, [], [],
        ⟨DFile.malformed, DFile.good ⟨[], [], "flat", 384⟩⟩⟩ ∧
    (load_index ⟨384, "flat", none, [], [],
      ⟨DFile.good ⟨"flat", true, []⟩, DFile.good ⟨[], [], "flat", 999⟩⟩⟩).isRaised
      = false ∧
    load_index ⟨384, "flat", none, [], [],
      ⟨DFile.good ⟨"flat", true, []⟩, DFile.good ⟨[], [], "flat", 999⟩⟩⟩ =
      .returned true ⟨384, "flat", some ⟨"flat", true, []⟩, [], [],
        ⟨DFile.good ⟨"flat", true, []⟩, DFile.good ⟨[], [], "flat", 999⟩⟩⟩ := by
  decide

/-- C4 amended: when both persisted artifacts are present but either is
malformed, `_load_index` catches the failure and returns `False` without any
exception escaping; the manager's metadata, identity map and index type keep
their pre-load (empty) values — observationally the same as a missing index.
No `CorruptIndexError` exists and the declared dimension is never validated. -/
theorem C4_amended (m : FAISSIndexManager)
    (h1 : m.disk.indexFile ≠ DFile.missing)
    (h2 : m.disk.metaFile ≠ DFile.missing)
    (h3 : m.disk.indexFile = DFile.malformed ∨ m.disk.metaFile = DFile.malformed) :
    (load_index m).isRaised = false ∧
    ∃ m2, load_index m = .returned false m2 ∧ m2.metadata = m.metadata ∧
      m2.id_to_idx = m.id_to_idx ∧ m2.index_type = m.index_type := by
  cases hif : m.disk.indexFile <;> cases hmf : m.disk.metaFile <;>
    simp_all [load_index, LoadOutcome.isRaised]

/-- Witness for C4 amended, at the same malformed-blob disk as the
counterexample. -/
theorem C4_witness :
    (load_index ⟨384, "flat", none, [], [],
      ⟨DFile.malformed, DFile.good ⟨[], [], "flat", 384⟩⟩⟩).isRaised = false ∧
    ∃ m2, load_index ⟨384, "flat", none, [], [],
        ⟨DFile.malformed, DFile.good ⟨[], [], "flat", 384⟩⟩⟩ =
        .returned false m2 ∧
      m2.metadata = [] ∧ m2.id_to_idx = [] ∧ m2.index_type = "flat" :=
  C4_amended ⟨384, "flat", none, [], [],
    ⟨DFile.malformed, DFile.good ⟨[], [], "flat", 384⟩⟩⟩
    (by decide) (by decide) (Or.inl rfl)

/-- C6: `_save_index` followed by `_load_index` into a freshly constructed
manager reproduces the size, the identity map and the metadata exactly, so
`search` with any probe (oracle), any `k` and any filter returns literally
identical results — in particular scores equal within any tolerance. -/
theorem C6_save_load_round_trip (m m' : FAISSIndexManager)
    (hsave : save_index m = some m') (d : Nat) (t : String) :
    load_index ⟨d, t, none, [], [], m'.disk⟩ =
      .returned true (initManager d t m'.disk) ∧
    sizeM (initManager d t m'.disk) = sizeM m ∧
    (initManager d t m'.disk).id_to_idx = m.id_to_idx ∧
    (initManager d t m'.disk).metadata = m.metadata ∧
    ∀ oracle k f, search (initManager d t m'.disk) oracle k f = search m oracle k f := by
  cases hix : m.idx with
  | none =>
    rw [save_index, hix] at hsave
    simp at hsave
  | some ix =>
    rw [save_index, hix] at hsave
    simp only [Option.map_some'] at hsave
    obtain he := Option.some.inj hsave
    subst he
    refine ⟨rfl, ?_, rfl, rfl, ?_⟩
    · simp [initManager, load_index, sizeM, vecsOf, hix]
    · intro oracle k f
      simp [initManager, load_index, search, sizeM, vecsOf, hix]

/-- Witness for C6 at a concrete one-document manager (whose disk already holds
its own save, so `save_index` reproduces it). -/
theorem C6_witness :
    load_index ⟨2, "flat", none, [], [], c3m1.disk⟩ =
      .returned true (initManager 2 "flat" c3m1.disk) ∧
    sizeM (initManager 2 "flat" c3m1.disk) = sizeM c3m1 ∧
    (initManager 2 "flat" c3m1.disk).id_to_idx = c3m1.id_to_idx ∧
    (initManager 2 "flat" c3m1.disk).metadata = c3m1.metadata ∧
    ∀ oracle k f, search (initManager 2 "flat" c3m1.disk) oracle k f =
      search c3m1 oracle k f :=
  C6_save_load_round_trip c3m1 c3m1 rfl 2 "flat"

/-- Invariant: an `"ivf"`-typed manager that is still untrained holds no
vectors (vectors can only ever be committed after training or after the flat
fallback). -/
def UntrainedIvfEmpty (m : FAISSIndexManager) : Prop :=
  m.index_type = "ivf" → isTrained m = false → vecsOf m = []

theorem dedupResult_len_eq (m : FAISSIndexManager) (vs : List Vec)
    (ms : List Meta) (dd : Bool) (hlen : vs.length = ms.length) :
    (dedupResult m vs ms dd).1.length = (dedupResult m vs ms dd).2.1.length := by
  unfold dedupResult
  cases dd
  · simpa using hlen
  · simp only [if_pos]
    exact dedupGo_len_eq _ _ [] [] _ rfl

theorem trainStep_no_untrained_ivf (m1 : FAISSIndexManager) (n : Nat) :
    (trainStep m1 n).index_type = "ivf" →
    (getIndexObj (trainStep m1 n)).trained = true := by
  unfold trainStep
  split
  · split
    · intro _
      simp [getIndexObj]
    · intro h
      simp at h
  · rename_i hcond
    intro hty
    have htr : isTrained m1 = true := by
      by_contra hne
      exact hcond ⟨hty, by simpa using hne⟩
    cases hm : m1.idx with
    | none => rw [isTrained, hm] at htr; simp at htr
    | some ix =>
      rw [isTrained, hm] at htr
      simpa [getIndexObj, hm] using htr

/-- What a successful `add_documents` call does to the stored vectors and
metadata: both are extended, in lockstep, by the projections of the surviving
input pairs. -/
theorem add_ok_structure {m m' : FAISSIndexManager} {vs : List Vec}
    {ms : List Meta} {dd : Bool} {n : Nat}
    (h : add_documents m vs ms dd = .ok (m', n))
    (hinv : UntrainedIvfEmpty m) :
    vecsOf m' = vecsOf m ++ (survivors m vs ms dd).map Prod.fst ∧
    m'.metadata = m.metadata ++ (survivors m vs ms dd).map Prod.snd ∧
    UntrainedIvfEmpty m' := by
  obtain ⟨hlen, hcases⟩ := add_documents_ok_cases h
  have hrlen := dedupResult_len_eq m vs ms dd hlen
  have hsurv : survivors m vs ms dd =
      (dedupResult m vs ms dd).1.zip (dedupResult m vs ms dd).2.1 := by
    unfold survivors
    rw [if_neg (by omega)]
  have hsfst : (survivors m vs ms dd).map Prod.fst = (dedupResult m vs ms dd).1 := by
    rw [hsurv]
    exact List.map_fst_zip _ _ (le_of_eq hrlen)
  have hssnd : (survivors m vs ms dd).map Prod.snd = (dedupResult m vs ms dd).2.1 := by
    rw [hsurv]
    exact List.map_snd_zip _ _ (le_of_eq hrlen.symm)
  rcases hcases with ⟨hz, he, -⟩ | ⟨hz, hdd, hemp, he, -⟩ | ⟨hz, hnot, he, -⟩
  · have hv : vs = [] := List.length_eq_zero.mp hz
    subst hv
    have hs : survivors m [] ms dd = [] := by
      rw [hsurv]
      unfold dedupResult
      cases dd <;> simp [dedupGo]
    rw [he, hs]
    exact ⟨by simp, by simp, hinv⟩
  · have h1 : (dedupResult m vs ms dd).1 = [] := by
      simpa using hemp
    have h2 : (dedupResult m vs ms dd).2.1 = [] :=
      List.length_eq_zero.mp (by rw [← hrlen, h1]; rfl)
    rw [he, hsurv, h1, h2]
    exact ⟨by simp [vecsOf], by simp, fun ha hb => hinv ha hb⟩
  · rw [he, hsfst, hssnd]
    have hinvA : UntrainedIvfEmpty { m with id_to_idx := (dedupResult m vs ms dd).2.2 } :=
      fun ha hb => hinv ha hb
    refine ⟨?_, ?_, ?_⟩
    · rw [commitStep_vecs, trainStep_vecs _ _ hinvA]
      rfl
    · rw [commitStep_metadata, trainStep_metadata]
    · intro hty htr
      rw [commitStep_index_type] at hty
      rw [commitStep_trained, trainStep_no_untrained_ivf _ _ hty] at htr
      simp at htr

/-- C1: along every sequence of successful `add_documents` calls from a fresh
empty manager, the stored vectors and stored metadata are exactly the first and
second projections of the one list of committed `(vector, metadata)` input
pairs — so `metadata[i]` is the record that was passed alongside `vector[i]`
for every valid `i` — and the reported size equals both lengths. -/
theorem C1_alignment_invariant {d : Nat} {t : String} {m : FAISSIndexManager}
    {ps : List (Vec × Meta)} (h : ReachL d t m ps) :
    vecsOf m = ps.map Prod.fst ∧ m.metadata = ps.map Prod.snd ∧
    sizeM m = m.metadata.length ∧ (vecsOf m).length = m.metadata.length := by
  have main : vecsOf m = ps.map Prod.fst ∧ m.metadata = ps.map Prod.snd ∧
      UntrainedIvfEmpty m := by
    induction h with
    | init => exact ⟨rfl, rfl, fun _ _ => rfl⟩
    | step hr hadd ih =>
      obtain ⟨hv, hm, hinv⟩ := ih
      obtain ⟨hv', hm', hinv'⟩ := add_ok_structure hadd hinv
      refine ⟨?_, ?_, hinv'⟩
      · rw [hv', hv, List.map_append]
      · rw [hm', hm, List.map_append]
  obtain ⟨hv, hm, -⟩ := main
  refine ⟨hv, hm, ?_, ?_⟩
  · rw [sizeM, hv, hm]
    simp
  · rw [hv, hm]
    simp

/-- Witness for C1 after one concrete `add_documents` call from a fresh
manager. -/
theorem C1_witness :
    vecsOf c3m1 = [[1, 0]] ∧ c3m1.metadata = [mtQ1] ∧
    sizeM c3m1 = c3m1.metadata.length := by
  have hstep : add_documents (initManager 2 "flat" emptyDisk) [[1, 0]] [mtQ1] true =
      .ok (c3m1, 1) := rfl
  have h := C1_alignment_invariant (ReachL.step ReachL.init hstep)
  exact ⟨by rw [h.1]; rfl, by rw [h.2.1]; rfl, h.2.2.1⟩

/-- Every successful run of the result-collection loop produces the
accumulator followed by an order-preserving selection (sublist) of the resolved
candidates, and never exceeds `k` results when the accumulator is below `k`. -/
theorem assemble_spec (md : List Meta) (f : Option Filters) (k : Nat) :
    ∀ (cands : List (Rat × Int)) (acc res : List (Meta × Rat)),
      assembleResults md f k cands acc = some res →
      (∃ tl, res = acc ++ tl ∧ tl.Sublist (cands.filterMap (resolveCand md))) ∧
      (acc.length < k → res.length ≤ k) := by
  intro cands
  induction cands with
  | nil =>
    intro acc res h
    simp only [assembleResults, Option.some.injEq] at h
    subst h
    exact ⟨⟨[], by simp, List.Sublist.refl _⟩, fun hlt => by omega⟩
  | cons c rest ih =>
    intro acc res h
    obtain ⟨s, i⟩ := c
    by_cases h1 : i = -1
    · rw [assembleResults, if_pos h1] at h
      obtain ⟨⟨tl, htl, hsub⟩, hlen⟩ := ih acc res h
      exact ⟨⟨tl, htl, by simpa [resolveCand, h1] using hsub⟩, hlen⟩
    · by_cases h2 : (md.length : Int) ≤ i
      · rw [assembleResults, if_neg h1, if_pos h2] at h
        obtain ⟨⟨tl, htl, hsub⟩, hlen⟩ := ih acc res h
        exact ⟨⟨tl, htl, by simpa [resolveCand, h1, h2] using hsub⟩, hlen⟩
      · rw [assembleResults, if_neg h1, if_neg h2] at h
        cases hpy : pyGet md i with
        | none => rw [hpy] at h; cases h
        | some mt =>
          rw [hpy] at h
          dsimp only at h
          have hcand : ((s, i) :: rest).filterMap (resolveCand md) =
              (mt, s) :: rest.filterMap (resolveCand md) := by
            simp [resolveCand, h1, h2, hpy]
          by_cases h3 : passFilter f mt = false
          · rw [if_pos h3] at h
            obtain ⟨⟨tl, htl, hsub⟩, hlen⟩ := ih acc res h
            exact ⟨⟨tl, htl, by rw [hcand]; exact hsub.cons _⟩, hlen⟩
          · rw [if_neg h3] at h
            by_cases h4 : k ≤ (acc ++ [(mt, s)]).length
            · rw [if_pos h4] at h
              obtain he := Option.some.inj h
              subst he
              refine ⟨⟨[(mt, s)], by simp, ?_⟩, fun hlt => by
                simp only [List.length_append, List.length_cons, List.length_nil] at *
                omega⟩
              rw [hcand]
              exact (List.nil_sublist _).cons₂ _
            · rw [if_neg h4] at h
              obtain ⟨⟨tl, htl, hsub⟩, hlen⟩ := ih (acc ++ [(mt, s)]) res h
              refine ⟨⟨(mt, s) :: tl, by simpa using htl, ?_⟩, fun hlt => hlen (by
                simp only [List.length_append, List.length_cons, List.length_nil] at *
                omega)⟩
              rw [hcand]
              exact hsub.cons₂ _

/-- C8: on a non-empty index with `k >= 1`, `search` requests exactly
`min(3*k, size)` raw candidates from the underlying index when a (truthy)
filter is present and exactly `k` when not, and whenever it returns, the result
holds at most `k` `(metadata, score)` pairs forming an order-preserving
selection of the resolved raw candidates (the candidate rank order, descending
score, is kept). -/
theorem C8_overfetch_and_rank_order (m : FAISSIndexManager)
    (oracle : Nat → List (Rat × Int)) (k : Nat) (f : Option Filters)
    (hk : 1 ≤ k) (hne : sizeM m ≠ 0) :
    search m oracle k f =
      assembleResults m.metadata f k
        (oracle (if filtersTruthy f then min (3 * k) (sizeM m) else k)) [] ∧
    ∀ res, search m oracle k f = some res →
      res.length ≤ k ∧
      res.Sublist ((oracle (if filtersTruthy f then min (3 * k) (sizeM m) else k)).filterMap
        (resolveCand m.metadata)) := by
  have h1 : search m oracle k f = assembleResults m.metadata f k
      (oracle (if filtersTruthy f then min (3 * k) (sizeM m) else k)) [] := by
    unfold search
    rw [if_neg hne, Nat.mul_comm]
  refine ⟨h1, fun res hres => ?_⟩
  rw [h1] at hres
  obtain ⟨⟨tl, htl, hsub⟩, hlen⟩ := assemble_spec m.metadata f k _ [] res hres
  constructor
  · exact hlen (by simp only [List.length_nil]; omega)
  · rw [htl]
    simpa using hsub

/-- Witness for C8: a one-document manager, the oracle returning the single
candidate `(1, 0)`, `k = 1`, no filter. -/
theorem C8_witness :
    search c3m1 (fun _ => [((1 : Rat), (0 : Int))]) 1 none =
      assembleResults c3m1.metadata none 1 [((1 : Rat), (0 : Int))] [] ∧
    [(mtQ1, (1 : Rat))].length ≤ 1 ∧
    List.Sublist [(mtQ1, (1 : Rat))]
      ([((1 : Rat), (0 : Int))].filterMap (resolveCand c3m1.metadata)) := by
  have h := C8_overfetch_and_rank_order c3m1 (fun _ => [((1 : Rat), (0 : Int))]) 1 none
    (by decide) (by decide)
  have h2 := h.2 [(mtQ1, 1)] rfl
  exact ⟨h.1, h2.1, h2.2⟩

/-- The result-collection loop cannot hit an `IndexError`: provided every
candidate position is the `-1` sentinel or non-negative (the underlying
index's output contract), every metadata access is in range. -/
theorem assemble_total (md : List Meta) (f : Option Filters) (k : Nat) :
    ∀ (cands : List (Rat × Int)), (∀ c ∈ cands, c.2 = -1 ∨ 0 ≤ c.2) →
      ∀ acc, (assembleResults md f k cands acc).isSome := by
  intro cands
  induction cands with
  | nil => intro _ acc; simp [assembleResults]
  | cons c rest ih =>
    intro hv acc
    obtain ⟨s, i⟩ := c
    have hrest : ∀ c ∈ rest, c.2 = -1 ∨ 0 ≤ c.2 :=
      fun c hc => hv c (List.mem_cons_of_mem _ hc)
    by_cases h1 : i = -1
    · rw [assembleResults, if_pos h1]
      exact ih hrest acc
    · by_cases h2 : (md.length : Int) ≤ i
      · rw [assembleResults, if_neg h1, if_pos h2]
        exact ih hrest acc
      · have hi : 0 ≤ i := by
          rcases hv (s, i) (List.mem_cons_self _ _) with h | h
          · exact absurd h h1
          · exact h
        have hlt : i.toNat < md.length := by omega
        cases hget : md.get? i.toNat with
        | none =>
          rw [List.get?_eq_none] at hget
          omega
        | some mt =>
          have hpy : pyGet md i = some mt := by
            rw [pyGet, if_pos hi, hget]
          rw [assembleResults, if_neg h1, if_neg h2, hpy]
          dsimp only
          by_cases h3 : passFilter f mt = false
          · rw [if_pos h3]
            exact ih hrest acc
          · rw [if_neg h3]
            by_cases h4 : k ≤ (acc ++ [(mt, s)]).length
            · rw [if_pos h4]
              rfl
            · rw [if_neg h4]
              exact ih hrest _

/-- C9: for every index state, every query (oracle behaviour) whose candidate
positions respect the underlying index's output contract (`-1` sentinel or a
non-negative position), and every `k >= 1`, `search` completes without ever
reading metadata out of range: the `-1` sentinel and positions
`>= len(self._metadata)` are skipped before resolution. -/
theorem C9_candidate_validation (m : FAISSIndexManager)
    (oracle : Nat → List (Rat × Int)) (k : Nat) (f : Option Filters)
    (_hk : 1 ≤ k)
    (hvalid : ∀ n, ∀ c ∈ oracle n, c.2 = -1 ∨ 0 ≤ c.2) :
    ∃ res, search m oracle k f = some res := by
  by_cases hz : sizeM m = 0
  · exact ⟨[], by simp [search, hz]⟩
  · have htot : (search m oracle k f).isSome := by
      unfold search
      rw [if_neg hz]
      exact assemble_total m.metadata f k _ (hvalid _) []
    obtain ⟨res, hres⟩ := Option.isSome_iff_exists.mp htot
    exact ⟨res, hres⟩

/-- Witness for C9: a candidate list containing the sentinel, a valid position
and an out-of-bounds position, on the one-document manager. -/
theorem C9_witness :
    (search c3m1
      (fun _ => [((1 : Rat), (-1 : Int)), ((1 : Rat), (0 : Int)), ((1 : Rat), (7 : Int))])
      1 none).isSome = true := by
  obtain ⟨res, hres⟩ := C9_candidate_validation c3m1
    (fun _ => [((1 : Rat), (-1 : Int)), ((1 : Rat), (0 : Int)), ((1 : Rat), (7 : Int))])
    1 none (by decide)
    (by
      intro n c hc
      simp only [List.mem_cons, List.mem_singleton, List.not_mem_nil, or_false] at hc
      rcases hc with rfl | rfl | rfl
      · exact Or.inl rfl
      · exact Or.inr (by decide)
      · exact Or.inr (by decide))
  rw [hres]
  rfl

theorem docId_of_idless (mt : Meta) (h : isIdless mt = true) : docId mt = "" := by
  rcases mt with ⟨id, src, a, b, c, d⟩
  rcases id with _ | s <;> rcases src with _ | s2 <;> simp_all [isIdless, docId]

theorem idlessCount_append (l1 l2 : List Meta) :
    idlessCount (l1 ++ l2) = idlessCount l1 + idlessCount l2 := by
  simp [idlessCount, List.countP_append]

/-- Once the empty-string id is registered, the dedup loop skips every further
identifier-less pair: the surviving metadata gains no identifier-less record
and the empty id stays registered. -/
theorem dedupGo_idless_skip (base : Nat) :
    ∀ (ps : List (Vec × Meta)) (nv : List Vec) (nm : List Meta) (mp : IdMap),
      (mapGet mp "").isSome →
      idlessCount (dedupGo base ps nv nm mp).2.1 = idlessCount nm ∧
      (mapGet (dedupGo base ps nv nm mp).2.2 "").isSome := by
  intro ps
  induction ps with
  | nil => intro nv nm mp h; exact ⟨rfl, h⟩
  | cons q rest ih =>
    intro nv nm mp h
    obtain ⟨v, mt⟩ := q
    by_cases hd : (mapGet mp (docId mt)).isSome
    · simp only [dedupGo, hd, if_true]
      exact ih nv nm mp h
    · have hne : docId mt ≠ "" := by
        intro he
        rw [he] at hd
        exact hd h
      have hnid : isIdless mt = false := by
        cases hb : isIdless mt
        · rfl
        · exact absurd (docId_of_idless _ hb) hne
      simp only [dedupGo, hd, Bool.false_eq_true, if_false]
      have hrec := ih (nv ++ [v]) (nm ++ [mt])
        (mapSet mp (docId mt) (base + (nm.length + 1) - 1))
        (isSome_mapGet_mapSet _ _ _ _ h)
      refine ⟨?_, hrec.2⟩
      rw [hrec.1, idlessCount_append]
      simp [idlessCount, List.countP_cons, hnid]

/-- Before the empty-string id is registered, the dedup loop lets at most one
identifier-less pair survive, and if one does, the empty id ends up
registered. -/
theorem dedupGo_idless_absent (base : Nat) :
    ∀ (ps : List (Vec × Meta)) (nv : List Vec) (nm : List Meta) (mp : IdMap),
      mapGet mp "" = none →
      idlessCount (dedupGo base ps nv nm mp).2.1 ≤ idlessCount nm + 1 ∧
      (idlessCount nm + 1 ≤ idlessCount (dedupGo base ps nv nm mp).2.1 →
        (mapGet (dedupGo base ps nv nm mp).2.2 "").isSome) := by
  intro ps
  induction ps with
  | nil =>
    intro nv nm mp h
    simp only [dedupGo]
    exact ⟨by omega, fun hc => absurd hc (by omega)⟩
  | cons q rest ih =>
    intro nv nm mp h
    obtain ⟨v, mt⟩ := q
    by_cases hd : (mapGet mp (docId mt)).isSome
    · simp only [dedupGo, hd, if_true]
      exact ih nv nm mp h
    · simp only [dedupGo, hd, Bool.false_eq_true, if_false]
      by_cases hdoc : docId mt = ""
      · have hsome : (mapGet (mapSet mp (docId mt) (base + (nm.length + 1) - 1)) "").isSome := by
          rw [hdoc, mapGet_mapSet_self]
          rfl
        have hA := dedupGo_idless_skip base rest (nv ++ [v]) (nm ++ [mt]) _ hsome
        constructor
        · rw [hA.1, idlessCount_append]
          have : idlessCount [mt] ≤ 1 := by
            simp [idlessCount, List.countP_cons]
            split <;> omega
          omega
        · intro _
          exact hA.2
      · have hnid : isIdless mt = false := by
          cases hb : isIdless mt
          · rfl
          · exact absurd (docId_of_idless _ hb) hdoc
        have habs : mapGet (mapSet mp (docId mt) (base + (nm.length + 1) - 1)) "" = none := by
          rw [mapGet_mapSet_ne mp (fun he => hdoc he.symm)]
          exact h
        have hrec := ih (nv ++ [v]) (nm ++ [mt])
          (mapSet mp (docId mt) (base + (nm.length + 1) - 1)) habs
        have hcnt : idlessCount (nm ++ [mt]) = idlessCount nm := by
          rw [idlessCount_append]
          simp [idlessCount, List.countP_cons, hnid]
        rw [hcnt] at hrec
        exact hrec

/-- The per-manager invariant behind C10. -/
def IdlessInv (m : FAISSIndexManager) : Prop :=
  idlessCount m.metadata ≤ 1 ∧
  (1 ≤ idlessCount m.metadata → (mapGet m.id_to_idx "").isSome)

theorem add_dedup_idless_inv {m m' : FAISSIndexManager} {vs : List Vec}
    {ms : List Meta} {n : Nat}
    (h : add_documents m vs ms true = .ok (m', n)) (hinv : IdlessInv m) :
    IdlessInv m' := by
  obtain ⟨hlen, hcases⟩ := add_documents_ok_cases h
  have hr : dedupResult m vs ms true =
      dedupGo m.metadata.length (vs.zip ms) [] [] m.id_to_idx := by
    unfold dedupResult
    rw [if_pos rfl]
  rcases hcases with ⟨hz, he, -⟩ | ⟨hz, -, hemp, he, -⟩ | ⟨hz, hnot, he, -⟩
  · rw [he]
    exact hinv
  · rw [he]
    refine ⟨hinv.1, fun hc => ?_⟩
    have hsome := hinv.2 hc
    show (mapGet (dedupResult m vs ms true).2.2 "").isSome
    rw [hr]
    exact dedupGo_mono _ _ _ _ _ _ hsome
  · rw [he]
    have hmeta : (commitStep
        (trainStep { m with id_to_idx := (dedupResult m vs ms true).2.2 }
          (dedupResult m vs ms true).1.length)
        (dedupResult m vs ms true).1 (dedupResult m vs ms true).2.1).metadata =
        m.metadata ++ (dedupResult m vs ms true).2.1 := by
      rw [commitStep_metadata, trainStep_metadata]
    have hmap : (commitStep
        (trainStep { m with id_to_idx := (dedupResult m vs ms true).2.2 }
          (dedupResult m vs ms true).1.length)
        (dedupResult m vs ms true).1 (dedupResult m vs ms true).2.1).id_to_idx =
        (dedupResult m vs ms true).2.2 := by
      rw [commitStep_id_to_idx, trainStep_id_to_idx]
    rw [IdlessInv, hmeta, hmap, idlessCount_append, hr]
    by_cases hsome : (mapGet m.id_to_idx "").isSome
    · have hA := dedupGo_idless_skip m.metadata.length (vs.zip ms) [] [] _ hsome
      rw [hA.1]
      have h1 := hinv.1
      exact ⟨by simpa [idlessCount] using h1, fun _ => hA.2⟩
    · have h0 : idlessCount m.metadata = 0 := by
        by_contra hne
        exact hsome (hinv.2 (by omega))
      have hB := dedupGo_idless_absent m.metadata.length (vs.zip ms) [] []
        m.id_to_idx (Option.not_isSome_iff_eq_none.mp hsome)
      rw [h0]
      refine ⟨by simpa [idlessCount] using hB.1, fun hc => hB.2 (by simpa [idlessCount] using hc)⟩

/-- C10: a record with neither a truthy `"id"` nor a `"source_id"` key derives
the empty string as its external id, and along every sequence of successful
`deduplicate=True` `add_documents` calls from a fresh manager, at most one such
identifier-less record is ever stored — all later ones are silently skipped. -/
theorem C10_idless_records :
    (∀ mt : Meta, isIdless mt = true → docId mt = "") ∧
    (∀ (d : Nat) (t : String) (m : FAISSIndexManager), ReachD d t m →
      idlessCount m.metadata ≤ 1) := by
  refine ⟨docId_of_idless, fun d t m h => ?_⟩
  have hinv : IdlessInv m := by
    induction h with
    | init =>
      refine ⟨?_, ?_⟩
      · show idlessCount ([] : List Meta) ≤ 1
        decide
      · show 1 ≤ idlessCount ([] : List Meta) → (mapGet ([] : IdMap) "").isSome
        intro hc
        exact absurd hc (by decide)
    | step hr hadd ih => exact add_dedup_idless_inv hadd ih
  exact hinv.1

/-- The manager after one dedup `add_documents` call carrying two
identifier-less records: only the first one was stored, under external id `""`. -/
def c10m1 : FAISSIndexManager :=
  ⟨2, "flat", some ⟨"flat", true, [[1, 0]]⟩, [mtNoId], [("", 0)],
    ⟨DFile.good ⟨"flat", true, [[1, 0]]⟩,
      DFile.good ⟨[mtNoId], [("", 0)], "flat", 2⟩⟩⟩

/-- Witness for C10: `{}` and `{id: ""}` both derive the empty id; a batch with
two identifier-less records stores only the first. -/
theorem C10_witness :
    docId mtNoId = "" ∧ idlessCount c10m1.metadata ≤ 1 := by
  have hstep : add_documents (initManager 2 "flat" emptyDisk) [[1, 0], [0, 1]]
      [mtNoId, ⟨some "", none, none, none, none, none⟩] true = .ok (c10m1, 1) := rfl
  exact ⟨C10_idless_records.1 mtNoId rfl,
    C10_idless_records.2 2 "flat" c10m1 (ReachD.step ReachD.init hstep)⟩

end FaissIndexModel
